import Mathlib

/-!
A shallow embedding of the Gitee REST client and of the local git
configuration initializer of the toolkit repository, together with theorems
settling the frozen claims about its specification.

The client manipulates untyped JavaScript values through lodash, so the
embedding starts from a small model of JavaScript values and of the lodash
operations the source uses (`_.get`, `_.defaults`, `_.omit`, `_.isEmpty`,
`_.startsWith`, `_.replace`, `_.size`, `_.concat`). Each client method is
translated into a pure function that additionally returns the trace of HTTP
requests it issues, and — where the source mutates the caller-supplied
params object in place — the final state of that object.
-/

namespace Toolkit

/-- JavaScript values, as manipulated by the client through lodash. -/
inductive Js where
  | undefined : Js
  | null : Js
  | bool : Bool → Js
  | num : Int → Js
  | str : String → Js
  | arr : List Js → Js
  | obj : List (String × Js) → Js

/-- Property lookup in an object field list (first binding wins). -/
def jgetFields : List (String × Js) → String → Js
  | [], _ => .undefined
  | (k1, v) :: rest, k => if k1 = k then v else jgetFields rest k

/-- Model of property access / lodash `_.get(o, k)`: `undefined` on
non-objects and on missing keys. -/
def jget : Js → String → Js
  | .obj fields, k => jgetFields fields k
  | _, _ => .undefined

/-- Whether a value is `undefined`. -/
def Js.isUndefined : Js → Bool
  | .undefined => true
  | _ => false

/-- Whether a value is a plain object. -/
def Js.isObj : Js → Bool
  | .obj _ => true
  | _ => false

/-- Model of lodash `_.get(o, k, d)`: the default `d` replaces an `undefined`
result. -/
def jgetD (o : Js) (k : String) (d : Js) : Js :=
  if (jget o k).isUndefined then d else jget o k

/-- Property assignment in a field list: updates the first binding of the
key, otherwise appends a new binding. -/
def setFields : List (String × Js) → String → Js → List (String × Js)
  | [], k, v => [(k, v)]
  | (k1, v1) :: rest, k, v =>
    if k1 = k then (k, v) :: rest else (k1, v1) :: setFields rest k v

/-- Model of the JavaScript assignment `o[k] = v` (a no-op on non-objects). -/
def jsSet : Js → String → Js → Js
  | .obj fields, k, v => .obj (setFields fields k v)
  | o, _, _ => o

/-- Fold of lodash `_.defaults`: assign each source binding whose key still
resolves to `undefined` on the destination, in source order. -/
def defaultsFields (dst : Js) : List (String × Js) → Js
  | [] => dst
  | (k, v) :: rest =>
    defaultsFields (if (jget dst k).isUndefined then jsSet dst k v else dst) rest

/-- Model of lodash `_.defaults(dst, src)`: fills destination keys that
resolve to `undefined` from the source object. The source mutates `dst` in
place and returns it; the model rebuilds the object. -/
def jsDefaults (dst src : Js) : Js :=
  match src with
  | .obj srcFields => defaultsFields dst srcFields
  | _ => dst

/-- Model of lodash `_.omit(o, keys)`. -/
def jsOmit (o : Js) (keys : List String) : Js :=
  match o with
  | .obj fields => .obj (fields.filter (fun kv => !(keys.contains kv.1)))
  | _ => o

/-- Numeric readout of a JavaScript value, used for the page counters. -/
def jsToNat : Js → Nat
  | .num n => n.toNat
  | _ => 0

/-- Strict equality `v === n` between a JavaScript value and a number. -/
def jsEqNum (v : Js) (n : Int) : Bool :=
  match v with
  | .num m => m == n
  | _ => false

/-- Model of lodash `_.isEmpty` on the value shapes of this embedding. -/
def jsIsEmpty : Js → Bool
  | .undefined => true
  | .null => true
  | .bool _ => true
  | .num _ => true
  | .str s => s.isEmpty
  | .arr xs => xs.isEmpty
  | .obj fields => fields.isEmpty

/-- String coercion as performed by JavaScript template literals. -/
def jsTmpl : Js → String
  | .undefined => "undefined"
  | .null => "null"
  | .bool b => if b then "true" else "false"
  | .num n => toString n
  | .str s => s
  | .arr _ => ""
  | .obj _ => "[object Object]"

/-- Model of lodash `_.startsWith(s, p)`. -/
def jsStartsWith (s p : String) : Bool :=
  p.data.isPrefixOf s.data

/-- Replace the first occurrence of `p` in a character list by `r`. -/
def replaceFirstAux : List Char → List Char → List Char → List Char
  | [], _, _ => []
  | c :: rest, p, r =>
    if p.isPrefixOf (c :: rest) then r ++ (c :: rest).drop p.length
    else c :: replaceFirstAux rest p r

/-- Model of lodash `_.replace(s, p, r)` with a string pattern: replaces the
first occurrence only. -/
def replaceFirst (s p r : String) : String :=
  String.mk (replaceFirstAux s.data p.data r.data)

/-- The string `s` with its first `n` characters removed. -/
def dropChars (s : String) (n : Nat) : String :=
  String.mk (s.data.drop n)

/-- The default query parameters `Gitee.PARAMS`. -/
def giteePARAMS : Js :=
  .obj [("per_page", .num 100), ("page", .num 1), ("sort", .str "updated")]

/-- The singleton object merged into the params by `requestV5` to append the
stored access token. -/
def tokObj (tok : String) : Js := .obj [("access_token", .str tok)]

/-- An axios response object carrying `body` under its `data` field. -/
def mkResp (body : Js) : Js := .obj [("data", body), ("status", .num 200)]

/-- State of a constructed Gitee client: the stored access token value. -/
structure GiteeState where
  access_token : Js

/-- Model of the `Gitee` constructor: reads `access_token` from the
configuration, rejects it when `_.isEmpty`, otherwise stores it. -/
def mkGitee (config : Js) : Except String GiteeState :=
  let tok := jget config "access_token"
  if jsIsEmpty tok then .error "Access token is required"
  else .ok ⟨tok⟩

/-- Modelled from the spec: the `Base` validation helpers (the file defining
class `Base` is not among the sources; only its callers are). The spec says
each operation's validator checks that the operation's required parameters
are present, raising on omission, synchronously before any network call. -/
def validateRequired (required : List String) (p : Js) : Except String Unit :=
  if required.all (fun k => !(jget p k).isUndefined) then .ok ()
  else .error "Missing required parameter"

/-- The access token field of the params object from the first `requestV5`
merge on: the stored token when the caller did not supply one, the caller
value otherwise. -/
def atVal (p0 : Js) (tok : String) : Js :=
  if (jget p0 "access_token").isUndefined then .str tok else jget p0 "access_token"

/-- An HTTP request issued through `requestV5`: path, method, and the query
object (the params merged with the stored access token). -/
structure Req where
  path : String
  method : String
  query : Js

/-- Model of `Gitee.requestList`, threaded over the mutable query object.
Each iteration performs the `requestV5` merge of the access token into the
params (`_.defaults`), reads the current page number, fetches that page from
the backend `pg`, appends the returned rows (`_.concat`), increments
`params.page` in place, and repeats while the fetched row count strictly
equals `params.per_page` (`_.size(data) === params.per_page`). The result
carries the final params object, the accumulated rows, and the request
trace: one entry `(page, access token sent, rows returned)` per HTTP
request. `fuel` bounds the recursion; `none` means the bound was reached. -/
def runListMut (tok : String) (pg : Nat → List Js) :
    Nat → Js → Option (Js × List Js × List (Nat × Js × List Js))
  | 0, _ => none
  | fuel + 1, p0 =>
    let p1 := jsDefaults p0 (tokObj tok)
    let page := jsToNat (jget p1 "page")
    let data := pg page
    let p2 := jsSet p1 "page" (.num (page + 1))
    if jsEqNum (jget p2 "per_page") data.length then
      match runListMut tok pg fuel p2 with
      | none => none
      | some (pf, rows, tr) =>
        some (pf, data ++ rows, (page, jget p1 "access_token", data) :: tr)
    else some (p2, data, [(page, jget p1 "access_token", data)])

/-- The page of rows served for the 1-based page number `n` at page size
`per` by a backend holding exactly the rows `l`, in order. -/
def pageOf (l : List Js) (per n : Nat) : List Js :=
  (l.drop ((n - 1) * per)).take per

/-- Output shape of `listRepos`. -/
structure RepoOutput where
  id : Js
  name : Js
  url : Js
  source : Js

/-- Output shape of `listBranchs`. -/
structure BranchOutput where
  name : Js
  commit_sha : Js
  source : Js

/-- Output shape of `getRefCommit`. -/
structure CommitOutput where
  sha : Js
  message : Js
  source : Js

/-- Output shape of `listWebhook` elements and of `getWebhook`. -/
structure WebhookOutput where
  id : Js
  url : Js
  source : Js

/-- Output shape of `createWebhook`. -/
structure CreateWebhookOutput where
  id : Js
  source : Js

/-- Row reshaping performed by `listRepos`. -/
def mkRepoOutput (row : Js) : RepoOutput :=
  ⟨jget row "id", jget row "name", jget row "html_url", row⟩

/-- Row reshaping performed by `listBranchs`. -/
def mkBranchOutput (row : Js) : BranchOutput :=
  ⟨jget row "name", jget (jget row "commit") "sha", row⟩

/-- Row reshaping performed by `listWebhook`. -/
def mkWebhookOutput (row : Js) : WebhookOutput :=
  ⟨jget row "id", jget row "url", row⟩

/-- Model of `Gitee.listRepos`: fetch all pages of the user repos endpoint
starting from a fresh object (caller params are not involved) and reshape
the rows. Returns the request trace, the final query object, and the
outputs. -/
def listReposModel (tok : String) (pg : Nat → List Js) (fuel : Nat) :
    Option (List (Nat × Js × List Js) × Js × List RepoOutput) :=
  match runListMut tok pg fuel
      (jsDefaults (.obj [("affiliation", .str "owner")]) giteePARAMS) with
  | none => none
  | some (pf, rows, tr) => some (tr, pf, rows.map mkRepoOutput)

/-- Model of `Gitee.listBranchs`: validate, merge the caller params with
`PARAMS` in place, paginate, reshape the rows. The first component is the
request trace (empty when validation throws); on success the payload also
returns the final state of the caller params object. -/
def listBranchsModel (tok : String) (params : Js) (pg : Nat → List Js)
    (fuel : Nat) :
    List (Nat × Js × List Js) × Except String (Option (Js × List BranchOutput)) :=
  match validateRequired ["owner", "repo"] params with
  | .error e => ([], .error e)
  | .ok _ =>
    match runListMut tok pg fuel (jsDefaults params giteePARAMS) with
    | none => ([], .ok none)
    | some (pf, rows, tr) => (tr, .ok (some (pf, rows.map mkBranchOutput)))

/-- Model of `Gitee.listWebhook`: validate, merge the caller params with
`PARAMS` in place, paginate the hooks endpoint, reshape the rows. -/
def listWebhookModel (tok : String) (params : Js) (pg : Nat → List Js)
    (fuel : Nat) :
    List (Nat × Js × List Js) × Except String (Option (Js × List WebhookOutput)) :=
  match validateRequired ["owner", "repo"] params with
  | .error e => ([], .error e)
  | .ok _ =>
    match runListMut tok pg fuel (jsDefaults params giteePARAMS) with
    | none => ([], .ok none)
    | some (pf, rows, tr) => (tr, .ok (some (pf, rows.map mkWebhookOutput)))

/-- Model of `Gitee.getRefCommit`: validate; on a ref starting with the tags
prefix query the releases/tags endpoint with the prefix replaced away and
map `target_commitish` and `tag_name`; otherwise replace away a leading
heads prefix if present and query the branches endpoint, mapping
`commit.sha` and `commit.commit.message`. Returns the request trace and the
result. -/
def getRefCommitModel (tok : String) (params : Js) (http : Req → Js) :
    List Req × Except String CommitOutput :=
  match validateRequired ["owner", "repo", "ref"] params with
  | .error e => ([], .error e)
  | .ok _ =>
    let owner := jsTmpl (jget params "owner")
    let repo := jsTmpl (jget params "repo")
    let ref := jsTmpl (jget params "ref")
    if jsStartsWith ref "refs/tags/" then
      let tag := replaceFirst ref "refs/tags/" ""
      let req : Req := ⟨"/repos/" ++ owner ++ "/" ++ repo ++ "/releases/tags/" ++ tag,
        "GET", jsDefaults (.obj []) (tokObj tok)⟩
      let source := jgetD (http req) "data" (.obj [])
      ([req], .ok ⟨jget source "target_commitish", jget source "tag_name", source⟩)
    else
      let branch :=
        if jsStartsWith ref "refs/heads/" then replaceFirst ref "refs/heads/" "" else ref
      let req : Req := ⟨"/repos/" ++ owner ++ "/" ++ repo ++ "/branches/" ++ branch,
        "GET", jsDefaults (.obj []) (tokObj tok)⟩
      let source := jgetD (http req) "data" (.obj [])
      ([req], .ok ⟨jget (jget source "commit") "sha",
        jget (jget (jget source "commit") "commit") "message", source⟩)

/-- Model of `Gitee.createWebhook`: validate, POST the caller params to the
hooks endpoint, and return the new id read from the response body together
with the body. -/
def createWebhookModel (tok : String) (params : Js) (http : Req → Js) :
    List Req × Except String CreateWebhookOutput :=
  match validateRequired ["owner", "repo"] params with
  | .error e => ([], .error e)
  | .ok _ =>
    let owner := jsTmpl (jget params "owner")
    let repo := jsTmpl (jget params "repo")
    let req : Req := ⟨"/repos/" ++ owner ++ "/" ++ repo ++ "/hooks", "POST",
      jsDefaults params (tokObj tok)⟩
    let source := jgetD (http req) "data" (.obj [])
    ([req], .ok ⟨jget source "id", source⟩)

/-- Model of `Gitee.getWebhook`. Faithful to the source, which reads `id`
and `url` off the axios response object itself rather than off its `data`
payload. -/
def getWebhookModel (tok : String) (params : Js) (http : Req → Js) :
    List Req × Except String WebhookOutput :=
  match validateRequired ["owner", "repo", "hook_id"] params with
  | .error e => ([], .error e)
  | .ok _ =>
    let owner := jsTmpl (jget params "owner")
    let repo := jsTmpl (jget params "repo")
    let hid := jsTmpl (jget params "hook_id")
    let req : Req := ⟨"/repos/" ++ owner ++ "/" ++ repo ++ "/hooks/" ++ hid, "GET",
      jsDefaults params (tokObj tok)⟩
    let result := http req
    ([req], .ok ⟨jget result "id", jget result "url", jgetD result "data" (.obj [])⟩)

/-- Model of `Gitee.updateWebhook`: validate, PATCH the params minus the
routing keys, return no payload. -/
def updateWebhookModel (tok : String) (params : Js) (http : Req → Js) :
    List Req × Except String Unit :=
  match validateRequired ["owner", "repo", "hook_id"] params with
  | .error e => ([], .error e)
  | .ok _ =>
    let owner := jsTmpl (jget params "owner")
    let repo := jsTmpl (jget params "repo")
    let hid := jsTmpl (jget params "hook_id")
    let req : Req := ⟨"/repos/" ++ owner ++ "/" ++ repo ++ "/hooks/" ++ hid, "PATCH",
      jsDefaults (jsOmit params ["owner", "repo", "hook_id"]) (tokObj tok)⟩
    let _ := http req
    ([req], .ok ())

/-- Model of `Gitee.deleteWebhook`: validate, DELETE, return no payload. -/
def deleteWebhookModel (tok : String) (params : Js) (http : Req → Js) :
    List Req × Except String Unit :=
  match validateRequired ["owner", "repo", "hook_id"] params with
  | .error e => ([], .error e)
  | .ok _ =>
    let owner := jsTmpl (jget params "owner")
    let repo := jsTmpl (jget params "repo")
    let hid := jsTmpl (jget params "hook_id")
    let req : Req := ⟨"/repos/" ++ owner ++ "/" ++ repo ++ "/hooks/" ++ hid, "DELETE",
      jsDefaults (.obj []) (tokObj tok)⟩
    let _ := http req
    ([req], .ok ())

/-- Input of `initConfig`. -/
structure IInitConfig where
  execDir : Option String
  userName : String
  userEmail : String

/-- Posix model of node `path.isAbsolute`. -/
def pathIsAbsolute (s : String) : Bool := jsStartsWith s "/"

/-- Model of node `path.join` for the one place it is used. -/
def pathJoin (a b : String) : String := a ++ "/" ++ b

/-- Effects performed by `initConfig`: directories ensured to exist,
directories where a repository is initialized, configuration entries added,
each in order. -/
structure InitTrace where
  ensuredDirs : List String
  gitInitDirs : List String
  addedConfigs : List (String × String)

/-- Model of `initConfig`: resolve the execution directory (the JavaScript
disjunction `config.execDir || os.tmpdir()` treats an empty string as
absent; a relative path is joined onto the working directory), ensure it
exists, initialize a repository there, and add the two identity
configuration entries. -/
def initConfigModel (cfg : IInitConfig) (tmpdir cwd : String) : InitTrace :=
  let execDir :=
    match cfg.execDir with
    | none => tmpdir
    | some s => if s.isEmpty then tmpdir else s
  let configExecDir := if pathIsAbsolute execDir then execDir else pathJoin cwd execDir
  ⟨[configExecDir], [configExecDir],
    [("user.name", cfg.userName), ("user.email", cfg.userEmail)]⟩

/-! ### Basic algebra of the JavaScript object model -/

theorem Js.eq_undefined_of_isUndefined {v : Js} (h : v.isUndefined = true) : v = .undefined := by
  cases v <;> simp [Js.isUndefined] at h ⊢

theorem isObj_jsSet (o : Js) (k : String) (v : Js) : (jsSet o k v).isObj = o.isObj := by
  cases o <;> rfl

theorem jgetFields_setFields_same (fs : List (String × Js)) (k : String) (v : Js) :
    jgetFields (setFields fs k v) k = v := by
  induction fs with
  | nil => simp [setFields, jgetFields]
  | cons kv rest ih =>
    obtain ⟨k1, v1⟩ := kv
    by_cases h : k1 = k <;> simp [setFields, h, jgetFields, ih]

theorem jgetFields_setFields_other (fs : List (String × Js)) (k : String) (v : Js)
    (k2 : String) (h : k ≠ k2) :
    jgetFields (setFields fs k v) k2 = jgetFields fs k2 := by
  induction fs with
  | nil => simp [setFields, jgetFields, h]
  | cons kv rest ih =>
    obtain ⟨k1, v1⟩ := kv
    by_cases h1 : k1 = k
    · subst h1
      simp [setFields, jgetFields, h]
    · simp [setFields, h1, jgetFields, ih]

theorem jget_jsSet_same (o : Js) (k : String) (v : Js) (h : o.isObj = true) :
    jget (jsSet o k v) k = v := by
  cases o <;> simp [Js.isObj] at h
  simp [jsSet, jget, jgetFields_setFields_same]

theorem jget_jsSet_other (o : Js) (k : String) (v : Js) (k2 : String) (h : k ≠ k2) :
    jget (jsSet o k v) k2 = jget o k2 := by
  cases o <;> simp [jsSet, jget, jgetFields_setFields_other _ _ _ _ h]

theorem isObj_defaultsFields (fs : List (String × Js)) :
    ∀ dst : Js, (defaultsFields dst fs).isObj = dst.isObj := by
  induction fs with
  | nil => intro dst; rfl
  | cons kv rest ih =>
    intro dst
    obtain ⟨k, v⟩ := kv
    by_cases h : (jget dst k).isUndefined <;> simp [defaultsFields, h, ih, isObj_jsSet]

theorem isObj_jsDefaults (dst src : Js) : (jsDefaults dst src).isObj = dst.isObj := by
  cases src <;> simp [jsDefaults, isObj_defaultsFields]

theorem jget_defaultsFields (fs : List (String × Js)) :
    ∀ (dst : Js) (k : String), dst.isObj = true →
      (∀ kv ∈ fs, (kv.2).isUndefined = false) →
      jget (defaultsFields dst fs) k =
        if (jget dst k).isUndefined then jgetFields fs k else jget dst k := by
  induction fs with
  | nil =>
    intro dst k _ _
    by_cases h : (jget dst k).isUndefined
    · simp [defaultsFields, jgetFields, h, Js.eq_undefined_of_isUndefined h]
    · simp [defaultsFields, h]
  | cons kv rest ih =>
    intro dst k hd hv
    obtain ⟨k1, v1⟩ := kv
    have hv1 : v1.isUndefined = false := hv (k1, v1) (List.mem_cons_self _ _)
    have hvr : ∀ kv ∈ rest, (kv.2).isUndefined = false := fun kv hkv => hv kv (List.mem_cons_of_mem _ hkv)
    by_cases h1 : (jget dst k1).isUndefined
    · have hobj : (jsSet dst k1 v1).isObj = true := by rw [isObj_jsSet]; exact hd
      rw [defaultsFields, if_pos h1, ih (jsSet dst k1 v1) k hobj hvr]
      by_cases hk : k1 = k
      · subst hk
        rw [jget_jsSet_same dst k1 v1 hd]
        simp [hv1, h1, jgetFields]
      · rw [jget_jsSet_other dst k1 v1 k hk]
        simp [jgetFields, hk]
    · rw [defaultsFields, if_neg h1, ih dst k hd hvr]
      by_cases hk : k1 = k
      · subst hk
        simp [h1, jgetFields]
      · simp [jgetFields, hk]

theorem jget_jsDefaults (dst : Js) (fs : List (String × Js)) (k : String)
    (hd : dst.isObj = true) (hv : ∀ kv ∈ fs, (kv.2).isUndefined = false) :
    jget (jsDefaults dst (.obj fs)) k =
      if (jget dst k).isUndefined then jgetFields fs k else jget dst k :=
  jget_defaultsFields fs dst k hd hv

/-! ### The access token merge performed by `requestV5` -/

theorem jget_tokMerge_at (p0 : Js) (tok : String) (h : p0.isObj = true) :
    jget (jsDefaults p0 (tokObj tok)) "access_token" = atVal p0 tok := by
  rw [tokObj, jget_jsDefaults p0 _ _ h (by simp [Js.isUndefined])]
  simp [jgetFields, atVal]

theorem jget_tokMerge_other (p0 : Js) (tok : String) (k : String) (h : p0.isObj = true)
    (hk : k ≠ "access_token") :
    jget (jsDefaults p0 (tokObj tok)) k = jget p0 k := by
  rw [tokObj, jget_jsDefaults p0 _ _ h (by simp [Js.isUndefined])]
  by_cases h2 : (jget p0 k).isUndefined
  · simp [h2, jgetFields, Ne.symm hk, Js.eq_undefined_of_isUndefined h2]
  · simp [h2]

theorem atVal_isUndef (p0 : Js) (tok : String) : (atVal p0 tok).isUndefined = false := by
  rw [atVal]
  cases hx : (jget p0 "access_token").isUndefined
  · rw [if_neg (by simp)]; exact hx
  · rw [if_pos rfl]; rfl

theorem atVal_congr {p2 p0 : Js} {tok : String}
    (h : jget p2 "access_token" = atVal p0 tok) : atVal p2 tok = atVal p0 tok := by
  have h2 := atVal_isUndef p0 tok
  rw [atVal, h, if_neg (by simp [h2])]

/-! ### One unfolding step of the pagination loop -/

theorem runListMut_step (tok : String) (pg : Nat → List Js) (fuel : Nat) (p0 : Js)
    (page per : Nat) (hobj : p0.isObj = true)
    (hpage : jget p0 "page" = .num page) (hper : jget p0 "per_page" = .num per) :
    runListMut tok pg (fuel + 1) p0 =
      if (pg page).length = per then
        match runListMut tok pg fuel
            (jsSet (jsDefaults p0 (tokObj tok)) "page" (.num (page + 1))) with
        | none => none
        | some (pf, rows, tr) =>
          some (pf, pg page ++ rows, (page, atVal p0 tok, pg page) :: tr)
      else
        some (jsSet (jsDefaults p0 (tokObj tok)) "page" (.num (page + 1)),
          pg page, [(page, atVal p0 tok, pg page)]) := by
  have h1 : jget (jsDefaults p0 (tokObj tok)) "page" = .num page := by
    rw [jget_tokMerge_other p0 tok "page" hobj (by decide)]; exact hpage
  have h2 : jget (jsDefaults p0 (tokObj tok)) "per_page" = .num per := by
    rw [jget_tokMerge_other p0 tok "per_page" hobj (by decide)]; exact hper
  have h3 : jget (jsSet (jsDefaults p0 (tokObj tok)) "page" (.num (page + 1)))
      "per_page" = .num per := by
    rw [jget_jsSet_other _ _ _ _ (by decide)]; exact h2
  have h4 : jget (jsDefaults p0 (tokObj tok)) "access_token" = atVal p0 tok :=
    jget_tokMerge_at p0 tok hobj
  by_cases hlen : (pg page).length = per
  · rw [if_pos hlen]
    have hc : jsEqNum (Js.num per) ((pg page).length : Int) = true := by
      simp [jsEqNum, hlen]
    simp only [runListMut, h1, h3, h4, jsToNat, Int.toNat_natCast, hc, if_true]
  · rw [if_neg hlen]
    have hc : jsEqNum (Js.num per) ((pg page).length : Int) = false := by
      simp [jsEqNum]
      omega
    simp only [runListMut, h1, h3, h4, jsToNat, Int.toNat_natCast, hc, Bool.false_eq_true,
      if_false]

/-! ### The full characterization of the pagination loop -/

theorem range_map_succ_shift {β : Type} (f : Nat → β) (n : Nat) :
    (List.range (n + 1)).map f = f 0 :: (List.range n).map (fun i => f (i + 1)) := by
  rw [List.range_succ_eq_map, List.map_cons, List.map_map]
  rfl

theorem runListMut_spec (tok : String) (pg : Nat → List Js) (per : Nat) :
    ∀ (fuel k page : Nat) (p0 : Js),
      p0.isObj = true →
      jget p0 "page" = .num page →
      jget p0 "per_page" = .num per →
      (pg (page + k)).length ≠ per →
      k < fuel →
      ∃ (n : Nat) (pf : Js),
        0 < n ∧ n ≤ k + 1 ∧
        runListMut tok pg fuel p0 =
          some (pf, ((List.range n).map (fun i => pg (page + i))).flatten,
            (List.range n).map (fun i => (page + i, atVal p0 tok, pg (page + i)))) ∧
        (∀ i, i + 1 < n → (pg (page + i)).length = per) ∧
        (pg (page + (n - 1))).length ≠ per ∧
        pf.isObj = true ∧
        jget pf "page" = .num (page + n) ∧
        jget pf "access_token" = atVal p0 tok ∧
        (∀ key, key ≠ "page" → key ≠ "access_token" → jget pf key = jget p0 key) := by
  intro fuel
  induction fuel with
  | zero => intro k page p0 _ _ _ _ hk; exact absurd hk (Nat.not_lt_zero k)
  | succ fuel ih =>
    intro k page p0 hobj hpage hper hshort hk
    have hp1obj : (jsDefaults p0 (tokObj tok)).isObj = true := by
      rw [isObj_jsDefaults]; exact hobj
    have hp1page : jget (jsDefaults p0 (tokObj tok)) "page" = .num page := by
      rw [jget_tokMerge_other p0 tok "page" hobj (by decide)]; exact hpage
    have hp1per : jget (jsDefaults p0 (tokObj tok)) "per_page" = .num per := by
      rw [jget_tokMerge_other p0 tok "per_page" hobj (by decide)]; exact hper
    have hp1at : jget (jsDefaults p0 (tokObj tok)) "access_token" = atVal p0 tok :=
      jget_tokMerge_at p0 tok hobj
    have hp2obj : (jsSet (jsDefaults p0 (tokObj tok)) "page" (.num (page + 1))).isObj
        = true := by rw [isObj_jsSet]; exact hp1obj
    have hp2page : jget (jsSet (jsDefaults p0 (tokObj tok)) "page" (.num (page + 1)))
        "page" = .num (page + 1) := jget_jsSet_same _ _ _ hp1obj
    have hp2per : jget (jsSet (jsDefaults p0 (tokObj tok)) "page" (.num (page + 1)))
        "per_page" = .num per := by
      rw [jget_jsSet_other _ _ _ _ (by decide)]; exact hp1per
    have hp2at : jget (jsSet (jsDefaults p0 (tokObj tok)) "page" (.num (page + 1)))
        "access_token" = atVal p0 tok := by
      rw [jget_jsSet_other _ _ _ _ (by decide)]; exact hp1at
    have hp2keys : ∀ key, key ≠ "page" → key ≠ "access_token" →
        jget (jsSet (jsDefaults p0 (tokObj tok)) "page" (.num (page + 1))) key
          = jget p0 key := by
      intro key hkp hka
      rw [jget_jsSet_other _ _ _ _ (Ne.symm hkp)]
      exact jget_tokMerge_other p0 tok key hobj hka
    rw [runListMut_step tok pg fuel p0 page per hobj hpage hper]
    by_cases hlen : (pg page).length = per
    · rw [if_pos hlen]
      have hk0 : k ≠ 0 := by
        intro h0
        rw [h0, Nat.add_zero] at hshort
        exact hshort hlen
      obtain ⟨k1, rfl⟩ : ∃ k1, k = k1 + 1 := ⟨k - 1, by omega⟩
      have hshort2 : (pg (page + 1 + k1)).length ≠ per := by
        rw [show page + 1 + k1 = page + (k1 + 1) from by omega]; exact hshort
      obtain ⟨n, pf, hn0, hnk, hrun, hfull, hlast, hpfobj, hpfpage, hpfat, hpfkeys⟩ :=
        ih k1 (page + 1) _ hp2obj hp2page hp2per hshort2 (by omega)
      have hat2 : atVal (jsSet (jsDefaults p0 (tokObj tok)) "page" (.num (page + 1))) tok
          = atVal p0 tok := atVal_congr hp2at
      refine ⟨n + 1, pf, by omega, by omega, ?_, ?_, ?_, hpfobj, ?_, atVal_congr hp2at ▸ hpfat, ?_⟩
      · rw [hrun]
        have hflat : ((List.range (n + 1)).map (fun i => pg (page + i))).flatten
            = pg page ++ ((List.range n).map (fun i => pg (page + 1 + i))).flatten := by
          rw [range_map_succ_shift (fun i => pg (page + i)) n]
          rw [List.flatten_cons, Nat.add_zero]
          congr 2
          apply List.map_congr_left
          intro i _
          congr 1
          omega
        have htr : (List.range (n + 1)).map
              (fun i => (page + i, atVal p0 tok, pg (page + i)))
            = (page, atVal p0 tok, pg page) ::
              (List.range n).map (fun i => (page + 1 + i, atVal p0 tok, pg (page + 1 + i))) := by
          rw [range_map_succ_shift (fun i => (page + i, atVal p0 tok, pg (page + i))) n]
          rw [Nat.add_zero]
          congr 1
          apply List.map_congr_left
          intro i _
          have hidx : page + (i + 1) = page + 1 + i := by omega
          rw [hidx]
        rw [hflat, htr, hat2]
      · intro i hi
        match i with
        | 0 => rw [Nat.add_zero]; exact hlen
        | j + 1 =>
          have := hfull j (by omega)
          rw [show page + (j + 1) = page + 1 + j from by omega]
          exact this
      · rw [show page + (n + 1 - 1) = page + 1 + (n - 1) from by omega]
        exact hlast
      · have hcast : ((page : Int) + ↑(n + 1)) = (↑(page + 1) + ↑n) := by push_cast; ring
        rw [hcast]
        exact hpfpage
      · intro key h1 h2
        rw [hpfkeys key h1 h2]
        exact hp2keys key h1 h2
    · rw [if_neg hlen]
      refine ⟨1, _, one_pos, by omega, ?_, ?_, ?_, hp2obj, ?_, hp2at, hp2keys⟩
      · have hr1 : List.range 1 = [0] := rfl
        simp only [hr1, List.map_cons, List.map_nil, List.flatten_cons,
          List.flatten_nil, List.append_nil, Nat.add_zero]
      · intro i hi; omega
      · rw [Nat.sub_self, Nat.add_zero]; exact hlen
      · exact hp2page

theorem runListMut_mono (tok : String) (pg : Nat → List Js) :
    ∀ (fuel fuel2 : Nat) (p : Js) (r : Js × List Js × List (Nat × Js × List Js)),
      fuel ≤ fuel2 →
      runListMut tok pg fuel p = some r →
      runListMut tok pg fuel2 p = some r := by
  intro fuel
  induction fuel with
  | zero =>
    intro fuel2 p r _ h
    exact absurd h (by simp [runListMut])
  | succ fuel ih =>
    intro fuel2 p r hle h
    obtain ⟨fuel3, rfl⟩ : ∃ f3, fuel2 = f3 + 1 := ⟨fuel2 - 1, by omega⟩
    simp only [runListMut] at h ⊢
    by_cases hc : jsEqNum
        (jget (jsSet (jsDefaults p (tokObj tok)) "page"
          (.num (jsToNat (jget (jsDefaults p (tokObj tok)) "page") + 1)))
          "per_page")
        ((pg (jsToNat (jget (jsDefaults p (tokObj tok)) "page"))).length : Int)
    · rw [if_pos hc] at h ⊢
      cases hrec : runListMut tok pg fuel
          (jsSet (jsDefaults p (tokObj tok)) "page"
            (.num (jsToNat (jget (jsDefaults p (tokObj tok)) "page") + 1))) with
      | none => rw [hrec] at h; exact absurd h (by simp)
      | some r2 =>
        rw [hrec] at h
        rw [ih fuel3 _ r2 (by omega) hrec]
        exact h
    · rw [if_neg hc] at h ⊢
      exact h

theorem runListMut_rows (tok : String) (pg : Nat → List Js) :
    ∀ (fuel : Nat) (p pf : Js) (rows : List Js) (tr : List (Nat × Js × List Js)),
      runListMut tok pg fuel p = some (pf, rows, tr) →
      rows = (tr.map (fun e => e.2.2)).flatten := by
  intro fuel
  induction fuel with
  | zero => intro p pf rows tr h; exact absurd h (by simp [runListMut])
  | succ fuel ih =>
    intro p pf rows tr h
    simp only [runListMut] at h
    by_cases hc : jsEqNum
        (jget (jsSet (jsDefaults p (tokObj tok)) "page"
          (.num (jsToNat (jget (jsDefaults p (tokObj tok)) "page") + 1)))
          "per_page")
        ((pg (jsToNat (jget (jsDefaults p (tokObj tok)) "page"))).length : Int)
    · rw [if_pos hc] at h
      cases hrec : runListMut tok pg fuel
          (jsSet (jsDefaults p (tokObj tok)) "page"
            (.num (jsToNat (jget (jsDefaults p (tokObj tok)) "page") + 1))) with
      | none => rw [hrec] at h; exact absurd h (by simp)
      | some r2 =>
        obtain ⟨pf2, rows2, tr2⟩ := r2
        rw [hrec] at h
        simp only [Option.some.injEq, Prod.mk.injEq] at h
        obtain ⟨hpf, hrows, htr⟩ := h
        rw [← hrows, ← htr]
        rw [ih _ pf2 rows2 tr2 hrec]
        simp
    · rw [if_neg hc] at h
      simp only [Option.some.injEq, Prod.mk.injEq] at h
      obtain ⟨hpf, hrows, htr⟩ := h
      rw [← hrows, ← htr]
      simp

/-! ### The slice backend: a store of `total` rows served 100 a page -/

theorem flatten_chunks :
    ∀ (q : Nat) (l : List Js) (per : Nat), 0 < per → l.length / per = q →
      ((List.range (q + 1)).map (fun i => (l.drop (i * per)).take per)).flatten = l := by
  intro q
  induction q with
  | zero =>
    intro l per hper hq
    have hlen : l.length < per := by
      by_contra hc
      push_neg at hc
      have h1 : 1 ≤ l.length / per := (Nat.one_le_div_iff hper).2 hc
      omega
    have hr1 : List.range 1 = [0] := rfl
    simp only [hr1, List.map_cons, List.map_nil, List.flatten_cons, List.flatten_nil,
      List.append_nil, Nat.zero_mul, List.drop_zero]
    exact List.take_of_length_le (le_of_lt hlen)
  | succ q ih =>
    intro l per hper hq
    have hple : per ≤ l.length := by
      by_contra hc
      push_neg at hc
      rw [Nat.div_eq_of_lt hc] at hq
      omega
    have hdrop : (l.drop per).length / per = q := by
      rw [List.length_drop]
      have hsplit : l.length = (l.length - per) + per := by omega
      rw [hsplit, Nat.add_div_right _ hper] at hq
      omega
    have hstep := ih (l.drop per) per hper hdrop
    rw [range_map_succ_shift (fun i => (l.drop (i * per)).take per) (q + 1)]
    have hfe : ((List.range (q + 1)).map fun i => (l.drop ((i + 1) * per)).take per)
        = ((List.range (q + 1)).map fun i => ((l.drop per).drop (i * per)).take per) := by
      apply List.map_congr_left
      intro i _
      rw [List.drop_drop, show per + i * per = (i + 1) * per from by ring]
    rw [List.flatten_cons, Nat.zero_mul, List.drop_zero, hfe, hstep]
    exact List.take_append_drop per l

theorem pageOf_full (l : List Js) (per i : Nat) (hi : i < l.length / per) :
    (pageOf l per (1 + i)).length = per := by
  rw [pageOf, show 1 + i - 1 = i from by omega, List.length_take, List.length_drop]
  have h2 : (i + 1) * per ≤ l.length := by
    calc (i + 1) * per ≤ (l.length / per) * per := Nat.mul_le_mul_right per (by omega)
    _ ≤ l.length := Nat.div_mul_le_self _ _
  have h3 : per ≤ l.length - i * per := by
    have : (i + 1) * per = i * per + per := by ring
    omega
  omega

theorem pageOf_short (l : List Js) (per : Nat) (hper : 0 < per) :
    (pageOf l per (1 + l.length / per)).length ≠ per := by
  rw [pageOf, show 1 + l.length / per - 1 = l.length / per from by simp,
    List.length_take, List.length_drop]
  have hdm := Nat.div_add_mod l.length per
  have hmlt : l.length % per < per := Nat.mod_lt _ hper
  have h1 : l.length - l.length / per * per = l.length % per := by
    rw [mul_comm]
    omega
  omega

theorem pageOf_past (l : List Js) (per : Nat) (hper : 0 < per)
    (hmod : l.length % per = 0) :
    pageOf l per (1 + l.length / per) = [] := by
  rw [pageOf, show 1 + l.length / per - 1 = l.length / per from by simp]
  have hdm := Nat.div_add_mod l.length per
  have h1 : l.length ≤ l.length / per * per := by
    rw [mul_comm]
    omega
  rw [List.drop_eq_nil_of_le h1, List.take_nil]

theorem ceilDiv_of_mod_ne (L per : Nat) (hper : 0 < per) (h : L % per ≠ 0) :
    L / per + 1 = (L + per - 1) / per := by
  set q := L / per with hq
  set r := L % per with hr
  have hdm : per * q + r = L := Nat.div_add_mod L per
  have hrlt : r < per := Nat.mod_lt _ hper
  have hx : per * (q + 1) = per * q + per := by ring
  have hsplit : L + per - 1 = (r - 1) + per * (q + 1) := by omega
  rw [hsplit, Nat.add_mul_div_left _ _ hper, Nat.div_eq_of_lt (show r - 1 < per from by omega)]
  omega

/-! ### The defaults merge with `PARAMS` performed by the list operations -/

theorem jget_paramsMerge (params : Js) (k : String) (h : params.isObj = true) :
    jget (jsDefaults params giteePARAMS) k =
      if (jget params k).isUndefined then
        jgetFields [("per_page", .num 100), ("page", .num 1), ("sort", .str "updated")] k
      else jget params k := by
  rw [giteePARAMS, jget_jsDefaults params _ k h (by simp [Js.isUndefined])]

/-- The concrete params object of a call with just an owner and a repo. -/
def ownerRepoParams (o r : String) : Js :=
  .obj [("owner", .str o), ("repo", .str r)]

theorem ownerRepo_merge_facts (o r : String) :
    (jsDefaults (ownerRepoParams o r) giteePARAMS).isObj = true ∧
    jget (jsDefaults (ownerRepoParams o r) giteePARAMS) "page" = .num (1 : Nat) ∧
    jget (jsDefaults (ownerRepoParams o r) giteePARAMS) "per_page" = .num (100 : Nat) ∧
    jget (jsDefaults (ownerRepoParams o r) giteePARAMS) "sort" = .str "updated" ∧
    jget (jsDefaults (ownerRepoParams o r) giteePARAMS) "owner" = .str o ∧
    jget (jsDefaults (ownerRepoParams o r) giteePARAMS) "repo" = .str r ∧
    jget (jsDefaults (ownerRepoParams o r) giteePARAMS) "access_token" = .undefined := by
  have hobj : (ownerRepoParams o r).isObj = true := rfl
  refine ⟨by rw [isObj_jsDefaults]; exact hobj, ?_, ?_, ?_, ?_, ?_, ?_⟩ <;>
    rw [jget_paramsMerge _ _ hobj] <;> rfl

theorem atVal_ownerRepo_merge (o r tok : String) :
    atVal (jsDefaults (ownerRepoParams o r) giteePARAMS) tok = .str tok := by
  obtain ⟨-, -, -, -, -, -, hat⟩ := ownerRepo_merge_facts o r
  rw [atVal, hat]
  rfl

theorem listBranchsModel_spec (tok o r : String) (pg : Nat → List Js) (fuel k : Nat)
    (hshort : (pg (1 + k)).length ≠ 100) (hfuel : k < fuel) :
    ∃ (n : Nat) (pf : Js),
      0 < n ∧ n ≤ k + 1 ∧
      listBranchsModel tok (ownerRepoParams o r) pg fuel =
        ((List.range n).map (fun i => (1 + i, Js.str tok, pg (1 + i))),
         .ok (some (pf,
           (((List.range n).map (fun i => pg (1 + i))).flatten).map mkBranchOutput))) ∧
      (∀ i, i + 1 < n → (pg (1 + i)).length = 100) ∧
      (pg (1 + (n - 1))).length ≠ 100 ∧
      jget pf "page" = .num (1 + n : Nat) ∧
      jget pf "per_page" = .num (100 : Nat) ∧
      jget pf "sort" = .str "updated" ∧
      jget pf "access_token" = .str tok ∧
      jget pf "owner" = .str o ∧
      jget pf "repo" = .str r := by
  obtain ⟨hmobj, hmpage, hmper, hmsort, hmowner, hmrepo, hmat⟩ := ownerRepo_merge_facts o r
  have hat := atVal_ownerRepo_merge o r tok
  obtain ⟨n, pf, hn0, hnk, hrun, hfull, hlast, hpfobj, hpfpage, hpfat, hpfkeys⟩ :=
    runListMut_spec tok pg 100 fuel k 1 (jsDefaults (ownerRepoParams o r) giteePARAMS)
      hmobj hmpage hmper hshort hfuel
  rw [hat] at hrun hpfat
  refine ⟨n, pf, hn0, hnk, ?_, hfull, hlast, ?_, ?_, ?_, hpfat, ?_, ?_⟩
  · have hval : validateRequired ["owner", "repo"] (ownerRepoParams o r) = .ok () := rfl
    simp only [listBranchsModel, hval, hrun]
  · exact_mod_cast hpfpage
  · rw [hpfkeys "per_page" (by decide) (by decide)]; exact hmper
  · rw [hpfkeys "sort" (by decide) (by decide)]; exact hmsort
  · rw [hpfkeys "owner" (by decide) (by decide)]; exact hmowner
  · rw [hpfkeys "repo" (by decide) (by decide)]; exact hmrepo

theorem listWebhookModel_spec (tok o r : String) (pg : Nat → List Js) (fuel k : Nat)
    (hshort : (pg (1 + k)).length ≠ 100) (hfuel : k < fuel) :
    ∃ (n : Nat) (pf : Js),
      0 < n ∧ n ≤ k + 1 ∧
      listWebhookModel tok (ownerRepoParams o r) pg fuel =
        ((List.range n).map (fun i => (1 + i, Js.str tok, pg (1 + i))),
         .ok (some (pf,
           (((List.range n).map (fun i => pg (1 + i))).flatten).map mkWebhookOutput))) ∧
      (∀ i, i + 1 < n → (pg (1 + i)).length = 100) ∧
      (pg (1 + (n - 1))).length ≠ 100 ∧
      jget pf "page" = .num (1 + n : Nat) ∧
      jget pf "per_page" = .num (100 : Nat) ∧
      jget pf "sort" = .str "updated" ∧
      jget pf "access_token" = .str tok ∧
      jget pf "owner" = .str o ∧
      jget pf "repo" = .str r := by
  obtain ⟨hmobj, hmpage, hmper, hmsort, hmowner, hmrepo, hmat⟩ := ownerRepo_merge_facts o r
  have hat := atVal_ownerRepo_merge o r tok
  obtain ⟨n, pf, hn0, hnk, hrun, hfull, hlast, hpfobj, hpfpage, hpfat, hpfkeys⟩ :=
    runListMut_spec tok pg 100 fuel k 1 (jsDefaults (ownerRepoParams o r) giteePARAMS)
      hmobj hmpage hmper hshort hfuel
  rw [hat] at hrun hpfat
  refine ⟨n, pf, hn0, hnk, ?_, hfull, hlast, ?_, ?_, ?_, hpfat, ?_, ?_⟩
  · have hval : validateRequired ["owner", "repo"] (ownerRepoParams o r) = .ok () := rfl
    simp only [listWebhookModel, hval, hrun]
  · exact_mod_cast hpfpage
  · rw [hpfkeys "per_page" (by decide) (by decide)]; exact hmper
  · rw [hpfkeys "sort" (by decide) (by decide)]; exact hmsort
  · rw [hpfkeys "owner" (by decide) (by decide)]; exact hmowner
  · rw [hpfkeys "repo" (by decide) (by decide)]; exact hmrepo

/-! ### Claim C6: construction requires a non-empty access token -/

/-- C6: for every configuration whose access token is absent or empty,
constructing the Gitee client throws immediately; for every configuration
with a non-empty access token the constructor succeeds and stores that
token. -/
theorem claim_C6_constructor (config : Js) :
    ((jget config "access_token" = .undefined ∨ jget config "access_token" = .str "") →
      mkGitee config = .error "Access token is required") ∧
    (∀ s : String, s ≠ "" → jget config "access_token" = .str s →
      mkGitee config = .ok ⟨.str s⟩) := by
  constructor
  · intro h
    cases h with
    | inl h => simp [mkGitee, h, jsIsEmpty]
    | inr h =>
      have he : jsIsEmpty (Js.str "") = true := by decide
      simp [mkGitee, h, he]
  · intro s hs h
    have hje : jsIsEmpty (Js.str s) = false := by
      cases hie : s.isEmpty
      · simp [jsIsEmpty, hie]
      · exact absurd ((String.isEmpty_iff _).mp hie) hs
    simp [mkGitee, h, hje]

/-- Witness for C6 at two concrete configurations. -/
theorem claim_C6_constructor_witness :
    mkGitee (Js.obj []) = .error "Access token is required" ∧
    mkGitee (Js.obj [("access_token", Js.str "tk")]) = .ok ⟨Js.str "tk"⟩ :=
  ⟨(claim_C6_constructor (Js.obj [])).1 (Or.inl rfl),
   (claim_C6_constructor (Js.obj [("access_token", Js.str "tk")])).2 "tk"
     (by decide) rfl⟩

/-! ### Claim C9: the local git configuration initializer -/

/-- C9: initConfig uses the system temp directory when no execDir is given,
resolves a relative execDir against the current working directory while an
absolute one is used as-is, ensures the resolved directory exists,
initializes a repository there, and sets exactly the two configuration keys
user.name and user.email to the supplied identity. -/
theorem claim_C9_initConfig (cfg : IInitConfig) (tmpdir cwd : String) :
    (cfg.execDir = none → pathIsAbsolute tmpdir = true →
      initConfigModel cfg tmpdir cwd =
        ⟨[tmpdir], [tmpdir], [("user.name", cfg.userName), ("user.email", cfg.userEmail)]⟩) ∧
    (∀ d, cfg.execDir = some d → d ≠ "" → pathIsAbsolute d = true →
      initConfigModel cfg tmpdir cwd =
        ⟨[d], [d], [("user.name", cfg.userName), ("user.email", cfg.userEmail)]⟩) ∧
    (∀ d, cfg.execDir = some d → d ≠ "" → pathIsAbsolute d = false →
      initConfigModel cfg tmpdir cwd =
        ⟨[pathJoin cwd d], [pathJoin cwd d],
          [("user.name", cfg.userName), ("user.email", cfg.userEmail)]⟩) ∧
    (initConfigModel cfg tmpdir cwd).ensuredDirs
      = (initConfigModel cfg tmpdir cwd).gitInitDirs ∧
    (initConfigModel cfg tmpdir cwd).addedConfigs
      = [("user.name", cfg.userName), ("user.email", cfg.userEmail)] := by
  refine ⟨?_, ?_, ?_, rfl, rfl⟩
  · intro h habs
    simp [initConfigModel, h, habs]
  · intro d hd hne habs
    have hni : d.isEmpty = false := by
      cases hie : d.isEmpty
      · rfl
      · exact absurd ((String.isEmpty_iff _).mp hie) hne
    simp [initConfigModel, hd, hni, habs]
  · intro d hd hne habs
    have hni : d.isEmpty = false := by
      cases hie : d.isEmpty
      · rfl
      · exact absurd ((String.isEmpty_iff _).mp hie) hne
    simp [initConfigModel, hd, hni, habs]

/-- Witness for C9 at concrete inputs: a missing execDir and a relative
one. -/
theorem claim_C9_initConfig_witness :
    initConfigModel ⟨none, "n", "e"⟩ "/tmp" "/w" =
      ⟨["/tmp"], ["/tmp"], [("user.name", "n"), ("user.email", "e")]⟩ ∧
    initConfigModel ⟨some "rel", "n", "e"⟩ "/tmp" "/w" =
      ⟨["/w/rel"], ["/w/rel"], [("user.name", "n"), ("user.email", "e")]⟩ :=
  ⟨(claim_C9_initConfig ⟨none, "n", "e"⟩ "/tmp" "/w").1 rfl rfl,
   (claim_C9_initConfig ⟨some "rel", "n", "e"⟩ "/tmp" "/w").2.2.1 "rel"
     rfl (by decide) rfl⟩

/-! ### Claim C5: validation throws before any request -/

theorem validateRequired_error (required : List String) (p : Js) (k : String)
    (hk : k ∈ required) (h : jget p k = .undefined) :
    validateRequired required p = .error "Missing required parameter" := by
  rw [validateRequired, if_neg]
  intro hall
  rw [List.all_eq_true] at hall
  have h2 := hall k hk
  rw [h] at h2
  simp [Js.isUndefined] at h2

/-- C5: for every operation with required parameters and every input missing
one of them, the call returns the validation error synchronously with an
empty request trace, so the transport is never invoked. -/
theorem claim_C5_validation (tok : String) (params : Js) (http : Req → Js)
    (pg : Nat → List Js) (fuel : Nat) :
    ((jget params "owner" = .undefined ∨ jget params "repo" = .undefined) →
      listBranchsModel tok params pg fuel = ([], .error "Missing required parameter") ∧
      listWebhookModel tok params pg fuel = ([], .error "Missing required parameter") ∧
      createWebhookModel tok params http = ([], .error "Missing required parameter")) ∧
    ((jget params "owner" = .undefined ∨ jget params "repo" = .undefined ∨
        jget params "ref" = .undefined) →
      getRefCommitModel tok params http = ([], .error "Missing required parameter")) ∧
    ((jget params "owner" = .undefined ∨ jget params "repo" = .undefined ∨
        jget params "hook_id" = .undefined) →
      getWebhookModel tok params http = ([], .error "Missing required parameter") ∧
      updateWebhookModel tok params http = ([], .error "Missing required parameter") ∧
      deleteWebhookModel tok params http = ([], .error "Missing required parameter")) := by
  refine ⟨?_, ?_, ?_⟩
  · intro h
    have hval : validateRequired ["owner", "repo"] params
        = .error "Missing required parameter" := by
      cases h with
      | inl h => exact validateRequired_error _ _ "owner" (by simp) h
      | inr h => exact validateRequired_error _ _ "repo" (by simp) h
    refine ⟨?_, ?_, ?_⟩ <;>
      simp only [listBranchsModel, listWebhookModel, createWebhookModel, hval]
  · intro h
    have hval : validateRequired ["owner", "repo", "ref"] params
        = .error "Missing required parameter" := by
      rcases h with h | h | h
      · exact validateRequired_error _ _ "owner" (by simp) h
      · exact validateRequired_error _ _ "repo" (by simp) h
      · exact validateRequired_error _ _ "ref" (by simp) h
    simp only [getRefCommitModel, hval]
  · intro h
    have hval : validateRequired ["owner", "repo", "hook_id"] params
        = .error "Missing required parameter" := by
      rcases h with h | h | h
      · exact validateRequired_error _ _ "owner" (by simp) h
      · exact validateRequired_error _ _ "repo" (by simp) h
      · exact validateRequired_error _ _ "hook_id" (by simp) h
    refine ⟨?_, ?_, ?_⟩ <;>
      simp only [getWebhookModel, updateWebhookModel, deleteWebhookModel, hval]

/-- Witness for C5 at the empty params object. -/
theorem claim_C5_validation_witness :
    listBranchsModel "t" (Js.obj []) (fun _ => []) 1
      = ([], .error "Missing required parameter") ∧
    getRefCommitModel "t" (Js.obj []) (fun _ => mkResp (Js.obj []))
      = ([], .error "Missing required parameter") ∧
    getWebhookModel "t" (Js.obj []) (fun _ => mkResp (Js.obj []))
      = ([], .error "Missing required parameter") :=
  have h := claim_C5_validation "t" (Js.obj []) (fun _ => mkResp (Js.obj []))
    (fun _ => []) 1
  ⟨(h.1 (Or.inl rfl)).1, h.2.1 (Or.inl rfl), (h.2.2 (Or.inl rfl)).1⟩

/-! ### Claim C2: ref resolution queries the right endpoint -/

theorem replaceFirst_of_startsWith (s p r : String) (hp : p.data ≠ [])
    (h : jsStartsWith s p = true) :
    replaceFirst s p r = String.mk (r.data ++ s.data.drop p.data.length) := by
  rw [jsStartsWith] at h
  rw [replaceFirst]
  cases hs : s.data with
  | nil =>
    rw [hs] at h
    cases hp2 : p.data with
    | nil => exact absurd hp2 hp
    | cons c cs =>
      rw [hp2] at h
      simp [List.isPrefixOf] at h
  | cons c cs =>
    rw [hs] at h
    have hpre := List.isPrefixOf_iff_prefix.mp h
    simp [replaceFirstAux, hpre]

theorem replaceTags (ref : String) (h : jsStartsWith ref "refs/tags/" = true) :
    replaceFirst ref "refs/tags/" "" = dropChars ref 10 := by
  rw [replaceFirst_of_startsWith ref "refs/tags/" "" (by decide) h, dropChars]
  congr 1

theorem replaceHeads (ref : String) (h : jsStartsWith ref "refs/heads/" = true) :
    replaceFirst ref "refs/heads/" "" = dropChars ref 11 := by
  rw [replaceFirst_of_startsWith ref "refs/heads/" "" (by decide) h, dropChars]
  congr 1

theorem jgetD_mkResp (body : Js) (h : body.isUndefined = false) :
    jgetD (mkResp body) "data" (.obj []) = body := by
  have hd : jget (mkResp body) "data" = body := by
    simp [mkResp, jget, jgetFields]
  rw [jgetD, hd, if_neg (by simp [h])]

/-- C2: getRefCommit with a ref beginning in refs/tags/ queries only the
releases/tags endpoint for the ref with that prefix stripped and returns
the response's target_commitish as sha and tag_name as message; any other
ref queries only the branches endpoint for the branch name obtained by
stripping a leading refs/heads/ prefix when present (other ref strings are
used verbatim), returning the branch head commit sha and that commit's
message. -/
theorem claim_C2_getRefCommit (tok owner repo ref : String) (params : Js)
    (http : Req → Js) (body : Js)
    (hOwner : jget params "owner" = .str owner)
    (hRepo : jget params "repo" = .str repo)
    (hRef : jget params "ref" = .str ref)
    (hBody : body.isUndefined = false)
    (hHttp : ∀ q : Req, http q = mkResp body) :
    (jsStartsWith ref "refs/tags/" = true →
      getRefCommitModel tok params http =
        ([⟨"/repos/" ++ owner ++ "/" ++ repo ++ "/releases/tags/" ++ dropChars ref 10,
            "GET", Js.obj [("access_token", Js.str tok)]⟩],
         .ok ⟨jget body "target_commitish", jget body "tag_name", body⟩)) ∧
    (jsStartsWith ref "refs/tags/" = false →
      getRefCommitModel tok params http =
        ([⟨"/repos/" ++ owner ++ "/" ++ repo ++ "/branches/" ++
            (if jsStartsWith ref "refs/heads/" then dropChars ref 11 else ref),
            "GET", Js.obj [("access_token", Js.str tok)]⟩],
         .ok ⟨jget (jget body "commit") "sha",
           jget (jget (jget body "commit") "commit") "message", body⟩)) := by
  have hval : validateRequired ["owner", "repo", "ref"] params = .ok () := by
    rw [validateRequired, if_pos]
    rw [List.all_eq_true]
    intro k hk
    simp only [List.mem_cons, List.not_mem_nil, or_false] at hk
    rcases hk with rfl | rfl | rfl
    · rw [hOwner]; rfl
    · rw [hRepo]; rfl
    · rw [hRef]; rfl
  have hq : jsDefaults (Js.obj []) (tokObj tok)
      = Js.obj [("access_token", Js.str tok)] := rfl
  constructor
  · intro htags
    simp [getRefCommitModel, hval, hOwner, hRepo, hRef, jsTmpl, htags,
      replaceTags ref htags, hq, hHttp, jgetD_mkResp body hBody]
  · intro htags
    cases hheads : jsStartsWith ref "refs/heads/" with
    | false =>
      simp [getRefCommitModel, hval, hOwner, hRepo, hRef, jsTmpl, htags, hheads,
        hq, hHttp, jgetD_mkResp body hBody]
    | true =>
      simp [getRefCommitModel, hval, hOwner, hRepo, hRef, jsTmpl, htags, hheads,
        replaceHeads ref hheads, hq, hHttp, jgetD_mkResp body hBody]

/-- Concrete params object for the C2 witness. -/
def paramsTagC2 : Js :=
  .obj [("owner", .str "o"), ("repo", .str "r"), ("ref", .str "refs/tags/v1.0")]

/-- Concrete tag-release response body for the C2 witness. -/
def bodyTagC2 : Js :=
  .obj [("target_commitish", .str "abc"), ("tag_name", .str "v1.0")]

/-- Witness for C2 at a concrete refs/tags/ ref. -/
theorem claim_C2_getRefCommit_witness :
    getRefCommitModel "t" paramsTagC2 (fun _ => mkResp bodyTagC2) =
      ([⟨"/repos/o/r/releases/tags/v1.0", "GET",
          Js.obj [("access_token", Js.str "t")]⟩],
       .ok ⟨Js.str "abc", Js.str "v1.0", bodyTagC2⟩) :=
  (claim_C2_getRefCommit "t" "o" "r" "refs/tags/v1.0" paramsTagC2
    (fun _ => mkResp bodyTagC2) bodyTagC2 rfl rfl rfl rfl (fun _ => rfl)).1 rfl

/-! ### Claim C3: getWebhook reads id and url off the wrong object -/

/-- Concrete webhook params for the C3 failing input. -/
def paramsHookC3 : Js :=
  .obj [("owner", .str "o"), ("repo", .str "r"), ("hook_id", .str "7")]

/-- Concrete hook response body for the C3 failing input: the payload under
the response's data field carries the hook's id and url. -/
def bodyHookC3 : Js := .obj [("id", .num 42), ("url", .str "http://x")]

/-- C3 (code divergence, evaluated at the failing input): getWebhook returns
the raw body as source but undefined id and url, because the source reads
them off the axios response object instead of off the payload under its
data field; reshaping the same payload as a listWebhook row yields id 42
and url http://x. -/
theorem claim_C3_getWebhook_divergence :
    getWebhookModel "t" paramsHookC3 (fun _ => mkResp bodyHookC3) =
      ([⟨"/repos/o/r/hooks/7", "GET", jsDefaults paramsHookC3 (tokObj "t")⟩],
       .ok ⟨Js.undefined, Js.undefined, bodyHookC3⟩) ∧
    mkWebhookOutput bodyHookC3 = ⟨Js.num 42, Js.str "http://x", bodyHookC3⟩ :=
  ⟨rfl, rfl⟩

/-! ### Claim C4: the source field carries the raw payload -/

theorem map_source_mkRepo (rows : List Js) :
    (rows.map mkRepoOutput).map (fun o => o.source) = rows := by
  rw [List.map_map]
  exact List.map_id rows

theorem map_source_mkBranch (rows : List Js) :
    (rows.map mkBranchOutput).map (fun o => o.source) = rows := by
  rw [List.map_map]
  exact List.map_id rows

theorem map_source_mkWebhook (rows : List Js) :
    (rows.map mkWebhookOutput).map (fun o => o.source) = rows := by
  rw [List.map_map]
  exact List.map_id rows

theorem jgetD_data_of (resp : Js) (body : Js) (h : jget resp "data" = body)
    (hb : body.isUndefined = false) : jgetD resp "data" (.obj []) = body := by
  rw [jgetD, h, if_neg (by simp [hb])]

/-- The backend page used by the C4 counterexample: one page holding two
distinct rows. -/
def pgHooksC4 : Nat → List Js :=
  fun _ => [Js.obj [("id", Js.num 1)], Js.obj [("id", Js.num 2)]]

/-- The final state of the params object in the C4 counterexample run. -/
def pfHooksC4 : Js :=
  .obj [("owner", .str "o"), ("repo", .str "r"), ("per_page", .num 100),
    ("page", .num 2), ("sort", .str "updated"), ("access_token", .str "t")]

/-- C4 counterexample: a listWebhook response page holds two distinct rows;
the two returned outputs carry different source values, so no single value
— in particular not the response body — is contained unmodified in every
output's source field, contrary to the claim read over list operations. -/
theorem claim_C4_counterexample :
    listWebhookModel "t" (ownerRepoParams "o" "r") pgHooksC4 1 =
      ([(1, Js.str "t", pgHooksC4 1)],
       .ok (some (pfHooksC4,
         [⟨Js.num 1, Js.undefined, Js.obj [("id", Js.num 1)]⟩,
          ⟨Js.num 2, Js.undefined, Js.obj [("id", Js.num 2)]⟩]))) ∧
    ¬ ∃ body : Js,
      ∀ o ∈ [(⟨Js.num 1, Js.undefined, Js.obj [("id", Js.num 1)]⟩ : WebhookOutput),
        ⟨Js.num 2, Js.undefined, Js.obj [("id", Js.num 2)]⟩], o.source = body := by
  constructor
  · rfl
  · rintro ⟨body, hb⟩
    have h1 := hb _ (List.mem_cons_self _ _)
    have h2 := hb _ (List.mem_cons_of_mem _ (List.mem_cons_self _ _))
    rw [← h1] at h2
    simp at h2

/-- C4 (amended): every payload-returning operation keeps the raw payload
unmodified under the source field — the response body (under data) for the
singular operations, and the corresponding row of the fetched pages for the
list operations. -/
theorem claim_C4_amended_source (tok : String) (params : Js) (pg : Nat → List Js)
    (http : Req → Js) (fuel : Nat) (body : Js)
    (hHttp : ∀ q, jget (http q) "data" = body) (hBody : body.isUndefined = false) :
    (∀ tr pf outs, listReposModel tok pg fuel = some (tr, pf, outs) →
      outs.map (fun o => o.source) = (tr.map (fun e => e.2.2)).flatten) ∧
    (∀ tr pf outs, listBranchsModel tok params pg fuel = (tr, .ok (some (pf, outs))) →
      outs.map (fun o => o.source) = (tr.map (fun e => e.2.2)).flatten) ∧
    (∀ tr pf outs, listWebhookModel tok params pg fuel = (tr, .ok (some (pf, outs))) →
      outs.map (fun o => o.source) = (tr.map (fun e => e.2.2)).flatten) ∧
    (∀ out, (getRefCommitModel tok params http).2 = .ok out → out.source = body) ∧
    (∀ out, (createWebhookModel tok params http).2 = .ok out → out.source = body) ∧
    (∀ out, (getWebhookModel tok params http).2 = .ok out → out.source = body) := by
  refine ⟨?_, ?_, ?_, ?_, ?_, ?_⟩
  · intro tr pf outs h
    cases hrun : runListMut tok pg fuel
        (jsDefaults (.obj [("affiliation", .str "owner")]) giteePARAMS) with
    | none => rw [listReposModel, hrun] at h; exact absurd h (by simp)
    | some r2 =>
      obtain ⟨pf2, rows2, tr2⟩ := r2
      rw [listReposModel, hrun] at h
      simp only [Option.some.injEq, Prod.mk.injEq] at h
      obtain ⟨htr, hpf, houts⟩ := h
      rw [← houts, ← htr, map_source_mkRepo]
      exact runListMut_rows tok pg fuel _ pf2 rows2 tr2 hrun
  · intro tr pf outs h
    cases hv : validateRequired ["owner", "repo"] params with
    | error e =>
      rw [listBranchsModel, hv] at h
      simp only [Prod.mk.injEq] at h
      exact absurd h.2 (by simp)
    | ok u =>
      cases u
      cases hrun : runListMut tok pg fuel (jsDefaults params giteePARAMS) with
      | none =>
        rw [listBranchsModel, hv, hrun] at h
        simp only [Prod.mk.injEq] at h
        exact absurd h.2 (by simp)
      | some r2 =>
        obtain ⟨pf2, rows2, tr2⟩ := r2
        rw [listBranchsModel, hv, hrun] at h
        simp only [Prod.mk.injEq, Except.ok.injEq, Option.some.injEq] at h
        obtain ⟨htr, hpf, houts⟩ := h
        rw [← houts, ← htr, map_source_mkBranch]
        exact runListMut_rows tok pg fuel _ pf2 rows2 tr2 hrun
  · intro tr pf outs h
    cases hv : validateRequired ["owner", "repo"] params with
    | error e =>
      rw [listWebhookModel, hv] at h
      simp only [Prod.mk.injEq] at h
      exact absurd h.2 (by simp)
    | ok u =>
      cases u
      cases hrun : runListMut tok pg fuel (jsDefaults params giteePARAMS) with
      | none =>
        rw [listWebhookModel, hv, hrun] at h
        simp only [Prod.mk.injEq] at h
        exact absurd h.2 (by simp)
      | some r2 =>
        obtain ⟨pf2, rows2, tr2⟩ := r2
        rw [listWebhookModel, hv, hrun] at h
        simp only [Prod.mk.injEq, Except.ok.injEq, Option.some.injEq] at h
        obtain ⟨htr, hpf, houts⟩ := h
        rw [← houts, ← htr, map_source_mkWebhook]
        exact runListMut_rows tok pg fuel _ pf2 rows2 tr2 hrun
  · intro out h
    cases hv : validateRequired ["owner", "repo", "ref"] params with
    | error e =>
      simp only [getRefCommitModel, hv] at h
      exact absurd h (by simp)
    | ok u =>
      cases u
      simp only [getRefCommitModel, hv] at h
      split at h
      · simp only [Except.ok.injEq] at h
        rw [← h]
        exact jgetD_data_of _ body (hHttp _) hBody
      · simp only [Except.ok.injEq] at h
        rw [← h]
        exact jgetD_data_of _ body (hHttp _) hBody
  · intro out h
    cases hv : validateRequired ["owner", "repo"] params with
    | error e =>
      simp only [createWebhookModel, hv] at h
      exact absurd h (by simp)
    | ok u =>
      cases u
      simp only [createWebhookModel, hv, Except.ok.injEq] at h
      rw [← h]
      exact jgetD_data_of _ body (hHttp _) hBody
  · intro out h
    cases hv : validateRequired ["owner", "repo", "hook_id"] params with
    | error e =>
      simp only [getWebhookModel, hv] at h
      exact absurd h (by simp)
    | ok u =>
      cases u
      simp only [getWebhookModel, hv, Except.ok.injEq] at h
      rw [← h]
      exact jgetD_data_of _ body (hHttp _) hBody

/-- Witness for the amended C4 at concrete inputs: a listWebhook page of two
rows, and a getRefCommit tag response. -/
theorem claim_C4_amended_source_witness :
    ([⟨Js.num 1, Js.undefined, Js.obj [("id", Js.num 1)]⟩,
      (⟨Js.num 2, Js.undefined, Js.obj [("id", Js.num 2)]⟩ : WebhookOutput)].map
        (fun o => o.source))
      = (([(1, Js.str "t", pgHooksC4 1)] : List (Nat × Js × List Js)).map
          (fun e => e.2.2)).flatten ∧
    (⟨Js.str "abc", Js.str "v1.0", bodyTagC2⟩ : CommitOutput).source = bodyTagC2 := by
  have h := claim_C4_amended_source "t" paramsTagC2 pgHooksC4
    (fun _ => mkResp bodyTagC2) 1 bodyTagC2 (fun _ => rfl) rfl
  exact ⟨h.2.2.1 _ _ _ rfl, h.2.2.2.1 _ rfl⟩

/-! ### Claim C8: the pagination loop terminates on an eventually short page -/

/-- C8: the pagination loop terminates for every backend response sequence
in which some page at or past the starting page contains fewer than the
page size 100 rows; under that hypothesis the result is one fixed value for
every sufficient fuel bound, so the loop is a total function of the
response sequence. -/
theorem claim_C8_termination (tok : String) (pg : Nat → List Js) (p0 : Js)
    (page k : Nat) (hobj : p0.isObj = true)
    (hpage : jget p0 "page" = .num (page : Nat))
    (hper : jget p0 "per_page" = .num (100 : Nat))
    (hshort : (pg (page + k)).length < 100) :
    ∃ r, ∀ fuel, k < fuel → runListMut tok pg fuel p0 = some r := by
  obtain ⟨n, pf, hn0, hnk, hrun, _, _, _, _, _, _⟩ :=
    runListMut_spec tok pg 100 (k + 1) k page p0 hobj hpage hper (by omega) (by omega)
  refine ⟨(pf, ((List.range n).map (fun i => pg (page + i))).flatten,
    (List.range n).map (fun i => (page + i, atVal p0 tok, pg (page + i)))),
    fun fuel hf => ?_⟩
  exact runListMut_mono tok pg (k + 1) fuel p0 _ (by omega) hrun

/-- Witness for C8: a backend whose first page is already empty. -/
theorem claim_C8_termination_witness :
    ∃ r, ∀ fuel, 0 < fuel → runListMut "t" (fun _ => ([] : List Js)) fuel
      (Js.obj [("page", Js.num 1), ("per_page", Js.num 100)]) = some r :=
  claim_C8_termination "t" (fun _ => []) _ 1 0 rfl rfl rfl (by decide)

/-! ### Claim C1: request counts over a backend holding `total` rows -/

/-- C1: over a backend holding exactly the rows of `l` served 100 a page
from page 1, requestList collects all rows in order and issues
`l.length / 100 + 1` requests; when the total is not a multiple of 100 this
count equals the ceiling `(l.length + 99) / 100`, and when it is a multiple
(including zero) the count is `total/100 + 1` and the last request (for
page `1 + total/100`, visible as the final trace entry) returns the empty
page. -/
theorem claim_C1_pagination (tok : String) (l : List Js) (p0 : Js)
    (hobj : p0.isObj = true)
    (hpage : jget p0 "page" = .num (1 : Nat))
    (hper : jget p0 "per_page" = .num (100 : Nat))
    (fuel : Nat) (hfuel : l.length / 100 < fuel) :
    ∃ pf, runListMut tok (pageOf l 100) fuel p0 =
        some (pf, l, (List.range (l.length / 100 + 1)).map
          (fun i => (1 + i, atVal p0 tok, pageOf l 100 (1 + i)))) ∧
      (l.length % 100 ≠ 0 → l.length / 100 + 1 = (l.length + 99) / 100) ∧
      (l.length % 100 = 0 → pageOf l 100 (1 + l.length / 100) = []) := by
  have hshort : (pageOf l 100 (1 + l.length / 100)).length ≠ 100 :=
    pageOf_short l 100 (by norm_num)
  obtain ⟨n, pf, hn0, hnk, hrun, hfull, hlast, _, _, _, _⟩ :=
    runListMut_spec tok (pageOf l 100) 100 fuel (l.length / 100) 1 p0
      hobj hpage hper hshort hfuel
  have hq : n - 1 = l.length / 100 := by
    by_contra hne
    rcases Nat.lt_or_ge (n - 1) (l.length / 100) with hlt | hge
    · exact hlast (pageOf_full l 100 (n - 1) hlt)
    · have hgt : l.length / 100 < n - 1 := by omega
      exact hshort (hfull (l.length / 100) (by omega))
  have hn : n = l.length / 100 + 1 := by omega
  rw [hn] at hrun
  have hmc : (List.range (l.length / 100 + 1)).map (fun i => pageOf l 100 (1 + i))
      = (List.range (l.length / 100 + 1)).map (fun i => (l.drop (i * 100)).take 100) := by
    apply List.map_congr_left
    intro i _
    rw [pageOf, show 1 + i - 1 = i from by omega]
  have hflat : ((List.range (l.length / 100 + 1)).map
      (fun i => pageOf l 100 (1 + i))).flatten = l := by
    rw [hmc]
    exact flatten_chunks (l.length / 100) l 100 (by norm_num) rfl
  rw [hflat] at hrun
  refine ⟨pf, hrun, fun hmod => ?_, fun hmod => pageOf_past l 100 (by norm_num) hmod⟩
  have hc := ceilDiv_of_mod_ne l.length 100 (by norm_num) hmod
  rw [show l.length + 100 - 1 = l.length + 99 from by omega] at hc
  exact hc

/-- Witness for C1 at the empty backend (`total = 0`, a multiple of 100):
one request, returning the empty confirming page. -/
theorem claim_C1_pagination_witness :
    ∃ pf, runListMut "t" (pageOf [] 100) 1
        (Js.obj [("page", Js.num 1), ("per_page", Js.num 100)]) =
        some (pf, [], (List.range (([] : List Js).length / 100 + 1)).map
          (fun i => (1 + i, atVal (Js.obj [("page", Js.num 1), ("per_page", Js.num 100)]) "t",
            pageOf [] 100 (1 + i)))) ∧
      (([] : List Js).length % 100 ≠ 0 →
        ([] : List Js).length / 100 + 1 = (([] : List Js).length + 99) / 100) ∧
      (([] : List Js).length % 100 = 0 → pageOf [] 100 (1 + ([] : List Js).length / 100) = []) :=
  claim_C1_pagination "t" [] (Js.obj [("page", Js.num 1), ("per_page", Js.num 100)])
    rfl rfl rfl 1 (by decide)

/-! ### Claim C7: listBranchs concatenates distinct consecutive pages -/

/-- C7: for a valid owner/repo pair and any terminating backend sequence,
listBranchs succeeds with outputs that are exactly the reshaped
concatenation of the fetched pages in fetch order, the output length is the
sum of the fetched page lengths, and the page numbers requested are the
consecutive integers starting at 1, pairwise distinct. -/
theorem claim_C7_listBranchs (tok o r : String) (pg : Nat → List Js) (fuel k : Nat)
    (hshort : (pg (1 + k)).length ≠ 100) (hfuel : k < fuel) :
    ∃ (tr : List (Nat × Js × List Js)) (pf : Js) (outs : List BranchOutput),
      listBranchsModel tok (ownerRepoParams o r) pg fuel = (tr, .ok (some (pf, outs))) ∧
      outs = ((tr.map (fun e => e.2.2)).flatten).map mkBranchOutput ∧
      outs.length = (tr.map (fun e => e.2.2.length)).sum ∧
      tr.map (fun e => e.1) = List.range' 1 tr.length ∧
      (tr.map (fun e => e.1)).Nodup := by
  obtain ⟨n, pf, hn0, hnk, heq, hfull, hlast, hpage, hper, hsort, hat, howner, hrepo⟩ :=
    listBranchsModel_spec tok o r pg fuel k hshort hfuel
  refine ⟨(List.range n).map (fun i => (1 + i, Js.str tok, pg (1 + i))), pf,
    (((List.range n).map (fun i => pg (1 + i))).flatten).map mkBranchOutput,
    heq, ?_, ?_, ?_, ?_⟩
  · rw [List.map_map]
    rfl
  · rw [List.length_map, List.length_flatten, List.map_map, List.map_map]
    rfl
  · rw [List.map_map, List.length_map, List.length_range]
    rw [List.range'_eq_map_range 1 n]
    rfl
  · rw [List.map_map]
    refine List.Nodup.map ?_ (List.nodup_range n)
    intro a b hab
    simp only [Function.comp_apply] at hab
    omega

/-- Witness for C7: a backend whose first page holds two rows (a short
page), so exactly one page is fetched. -/
theorem claim_C7_listBranchs_witness :
    ∃ (tr : List (Nat × Js × List Js)) (pf : Js) (outs : List BranchOutput),
      listBranchsModel "t" (ownerRepoParams "o" "r") pgHooksC4 1 =
        (tr, .ok (some (pf, outs))) ∧
      outs = ((tr.map (fun e => e.2.2)).flatten).map mkBranchOutput ∧
      outs.length = (tr.map (fun e => e.2.2.length)).sum ∧
      tr.map (fun e => e.1) = List.range' 1 tr.length ∧
      (tr.map (fun e => e.1)).Nodup :=
  claim_C7_listBranchs "t" "o" "r" pgHooksC4 1 0 (by decide) (by decide)

/-! ### Claim C10: the caller params object is mutated in place -/

/-- C10: listBranchs and listWebhook mutate the caller-supplied params
object in place: for a caller object holding only owner and repo (so
per_page, page, sort and access_token are all absent), the defaults merge
inserts per_page (100), page and sort (updated), the stored access token is
added and is the token sent with every request including the first, and
after the call returns the object's page field is left incremented one past
the last page fetched (the pages fetched being 1..tr.length). -/
theorem claim_C10_params_mutation (tok o r : String) (pg : Nat → List Js)
    (fuel k : Nat) (hshort : (pg (1 + k)).length ≠ 100) (hfuel : k < fuel) :
    jget (ownerRepoParams o r) "per_page" = .undefined ∧
    jget (ownerRepoParams o r) "page" = .undefined ∧
    jget (ownerRepoParams o r) "sort" = .undefined ∧
    jget (ownerRepoParams o r) "access_token" = .undefined ∧
    (∃ tr pf outs,
      listBranchsModel tok (ownerRepoParams o r) pg fuel = (tr, .ok (some (pf, outs))) ∧
      jget pf "per_page" = .num (100 : Nat) ∧
      jget pf "sort" = .str "updated" ∧
      jget pf "access_token" = .str tok ∧
      jget pf "owner" = .str o ∧ jget pf "repo" = .str r ∧
      (∀ e ∈ tr, e.2.1 = Js.str tok) ∧
      0 < tr.length ∧
      jget pf "page" = .num (1 + tr.length : Nat)) ∧
    (∃ tr pf outs,
      listWebhookModel tok (ownerRepoParams o r) pg fuel = (tr, .ok (some (pf, outs))) ∧
      jget pf "per_page" = .num (100 : Nat) ∧
      jget pf "sort" = .str "updated" ∧
      jget pf "access_token" = .str tok ∧
      jget pf "owner" = .str o ∧ jget pf "repo" = .str r ∧
      (∀ e ∈ tr, e.2.1 = Js.str tok) ∧
      0 < tr.length ∧
      jget pf "page" = .num (1 + tr.length : Nat)) := by
  refine ⟨rfl, rfl, rfl, rfl, ?_, ?_⟩
  · obtain ⟨n, pf, hn0, hnk, heq, hfull, hlast, hpage, hper, hsort, hat, howner, hrepo⟩ :=
      listBranchsModel_spec tok o r pg fuel k hshort hfuel
    refine ⟨_, pf, _, heq, hper, hsort, hat, howner, hrepo, ?_, ?_, ?_⟩
    · intro e he
      rw [List.mem_map] at he
      obtain ⟨i, _, rfl⟩ := he
      rfl
    · rw [List.length_map, List.length_range]
      omega
    · rw [List.length_map, List.length_range]
      exact hpage
  · obtain ⟨n, pf, hn0, hnk, heq, hfull, hlast, hpage, hper, hsort, hat, howner, hrepo⟩ :=
      listWebhookModel_spec tok o r pg fuel k hshort hfuel
    refine ⟨_, pf, _, heq, hper, hsort, hat, howner, hrepo, ?_, ?_, ?_⟩
    · intro e he
      rw [List.mem_map] at he
      obtain ⟨i, _, rfl⟩ := he
      rfl
    · rw [List.length_map, List.length_range]
      omega
    · rw [List.length_map, List.length_range]
      exact hpage

/-- Witness for C10: the listBranchs component at a concrete one-page
backend. -/
theorem claim_C10_params_mutation_witness :
    ∃ tr pf outs,
      listBranchsModel "t" (ownerRepoParams "o" "r") pgHooksC4 1 =
        (tr, .ok (some (pf, outs))) ∧
      jget pf "per_page" = Js.num (100 : Nat) ∧
      jget pf "sort" = Js.str "updated" ∧
      jget pf "access_token" = Js.str "t" ∧
      jget pf "owner" = Js.str "o" ∧ jget pf "repo" = Js.str "r" ∧
      (∀ e ∈ tr, e.2.1 = Js.str "t") ∧
      0 < tr.length ∧
      jget pf "page" = Js.num (1 + tr.length : Nat) :=
  (claim_C10_params_mutation "t" "o" "r" pgHooksC4 1 0 (by decide)
    (by decide)).2.2.2.2.1

end Toolkit

